import Mathlib

/-!
Verification of the W-306 Mealy server (src/index.js).

The server keeps a list of User documents in a document store.  Each API
handler loads users, mutates some of them, and saves.  We embed the store
as a `List UserR` and each handler as a function on that list.  Timestamps
are abstract `Nat` ticks; the current wall-clock hour is a `Nat` parameter.
The external notification sender is modelled by a function
`fails : String → Bool` on device tokens telling which sends fail; the
handlers wrap each send in a try/catch, which we render by recording an
attempt with its outcome and continuing the loop either way.
-/

/-- One entry of a user's `mealHistory` (mealHistorySchema, index.js:68). -/
structure MealRecord where
  date : Nat
  mealType : String
  eaten : Bool
  status : String
deriving DecidableEq

/-- A User document (userSchema, index.js:81).  `firebaseUid` is the stable
identity from the auth provider; optional fields are `Option`. -/
structure UserR where
  email : String
  name : String
  firebaseUid : String
  hasEaten : Bool
  lastEatenAt : Option Nat
  fcmToken : Option String
  mealHistory : List MealRecord
  isAway : Bool
  awayStartDate : Option Nat
  awayEndDate : Option Nat
  missedMealsCount : Nat
deriving DecidableEq

/-- Mongoose `findOne`/`save` on a list store: apply `f` to the first element
matching `p`, leave the rest unchanged. -/
def updateFirst (p : UserR → Bool) (f : UserR → UserR) : List UserR → List UserR
  | [] => []
  | u :: rest => if p u then f u :: rest else u :: updateFirst p f rest

/-- A freshly registered user: schema defaults `hasEaten=false`, `isAway=false`,
`missedMealsCount=0`, empty history, all optional dates/token absent
(index.js:159 `new User({ name, email, firebaseUid })`). -/
def newUser (name email uid : String) : UserR :=
  { email := email, name := name, firebaseUid := uid, hasEaten := false,
    lastEatenAt := none, fcmToken := none, mealHistory := [],
    isAway := false, awayStartDate := none, awayEndDate := none,
    missedMealsCount := 0 }

/-- Outcome of `POST /api/users/register`. -/
inductive RegisterResult where
  | forbidden
  | ok (user : UserR)
deriving DecidableEq

/-- `POST /api/users/register` (index.js:142): reject with 403 when the user
count is already ≥ 5, otherwise return the existing record for this uid or
create one with the schema defaults. -/
def register (name email uid : String) (users : List UserR) :
    RegisterResult × List UserR :=
  if users.length ≥ 5 then (.forbidden, users)
  else
    match users.find? (fun u => u.firebaseUid == uid) with
    | some u => (.ok u, users)
    | none =>
      let u := newUser name email uid
      (.ok u, users ++ [u])

/-- `POST /api/users/fcm-token` (index.js:170): `findOneAndUpdate` by uid
setting the device token. -/
def updateFcmToken (uid token : String) (users : List UserR) : List UserR :=
  updateFirst (fun u => u.firebaseUid == uid)
    (fun u => { u with fcmToken := some token }) users

/-- Status part of a handler response. -/
inductive ApiStatus where
  | notFound
  | invalidState
  | ok
deriving DecidableEq

/-- Per-user effect of `POST /api/users/toggle-away` (index.js:207):
flip `isAway`; entering away records the start date, clears the end date and
resets `hasEaten`; leaving away records the end date. -/
def toggleAwayUser (now : Nat) (u : UserR) : UserR :=
  if !u.isAway then
    { u with isAway := true, awayStartDate := some now, awayEndDate := none,
             hasEaten := false }
  else
    { u with isAway := false, awayEndDate := some now }

/-- `POST /api/users/toggle-away` (index.js:198): 404 when the uid is
unknown, otherwise toggle the found user's away state and save. -/
def toggleAway (uid : String) (now : Nat) (users : List UserR) :
    ApiStatus × List UserR :=
  match users.find? (fun u => u.firebaseUid == uid) with
  | none => (.notFound, users)
  | some _ =>
    (.ok, updateFirst (fun u => u.firebaseUid == uid) (toggleAwayUser now) users)

/-- `POST /api/users/mark-eaten` (index.js:230): 404 when the uid is unknown,
400 when the user is away (returning before any mutation), otherwise set
`hasEaten=true` and `lastEatenAt=now` on that user and save. -/
def markEaten (uid : String) (now : Nat) (users : List UserR) :
    ApiStatus × List UserR :=
  match users.find? (fun u => u.firebaseUid == uid) with
  | none => (.notFound, users)
  | some u =>
    if u.isAway then (.invalidState, users)
    else
      (.ok, updateFirst (fun v => v.firebaseUid == uid)
        (fun v => { v with hasEaten := true, lastEatenAt := some now }) users)

/-- `getCurrentMealType` (index.js:316) as a function of the wall-clock hour:
`hours >= 7 && hours < 17 ? Lunch : Dinner`. -/
def getCurrentMealType (hour : Nat) : String :=
  if 7 ≤ hour ∧ hour < 17 then "Lunch" else "Dinner"

/-- The MealRecord pushed for a missed meal (index.js:299). -/
def missedRecord (now hour : Nat) : MealRecord :=
  { date := now, mealType := getCurrentMealType hour, eaten := false,
    status := "missed" }

/-- Per-user effect of `User.updateMany({ isAway: false }, { hasEaten: false })`
(index.js:308 and index.js:393). -/
def clearEatenIfPresent (u : UserR) : UserR :=
  if !u.isAway then { u with hasEaten := false } else u

/-- Per-user effect of the first phase of `POST /api/users/reset-eaten`
(index.js:295): users matching `{ isAway: false, hasEaten: false }` get
`missedMealsCount` incremented and a missed MealRecord pushed. -/
def recordMissedIfEligible (now hour : Nat) (u : UserR) : UserR :=
  if !u.isAway && !u.hasEaten then
    { u with missedMealsCount := u.missedMealsCount + 1,
             mealHistory := u.mealHistory ++ [missedRecord now hour] }
  else u

/-- `resetEatenStatus` (index.js:390), the job scheduled once per day at
midnight (index.js:401): only
`User.updateMany({ isAway: false }, { hasEaten: false })`. -/
def resetEatenStatus (users : List UserR) : List UserR :=
  users.map clearEatenIfPresent

/-- `POST /api/users/reset-eaten` (index.js:293): first record a missed meal
for every non-away user who has not eaten, then run the same `updateMany` as
the scheduled job. -/
def resetEaten (now hour : Nat) (users : List UserR) : List UserR :=
  resetEatenStatus (users.map (recordMissedIfEligible now hour))

/-- One attempted notification send: the recipient document at send time, the
notification title, and whether the external send succeeded. -/
structure Attempt where
  recipient : UserR
  title : String
  ok : Bool
deriving DecidableEq

/-- One fan-out loop of `POST /api/report-food-finished` (index.js:346 and
index.js:362): for each listed user holding a device token and not away,
attempt one send; the try/catch logs a failure and continues, so the
attempt is recorded with its outcome and the loop goes on either way. -/
def attemptSends (fails : String → Bool) (title : String) :
    List UserR → List Attempt
  | [] => []
  | u :: rest =>
    match u.fcmToken with
    | some tok =>
      if !u.isAway then
        { recipient := u, title := title, ok := !(fails tok) }
          :: attemptSends fails title rest
      else attemptSends fails title rest
    | none => attemptSends fails title rest

/-- Outcome of `POST /api/report-food-finished`. -/
inductive ReportResult where
  | notFound
  | invalidState
  | done
  | sent (remainingActiveUsers : Nat)
deriving DecidableEq

/-- `POST /api/report-food-finished` (index.js:321): 404 for an unknown
reporter, 400 for an away reporter; otherwise split users into
`remainingUsers` (not eaten, not away) and `usersWhoAte` (eaten); when no one
remains answer the done message with no sends; otherwise fan out the
"Food Finished!" sends to `remainingUsers` then the "Food Status" sends to
`usersWhoAte` and answer the success summary.  The handler never writes to
the store, so the user list is returned unchanged in every branch. -/
def reportFoodFinished (fails : String → Bool) (uid : String)
    (users : List UserR) : ReportResult × List Attempt × List UserR :=
  match users.find? (fun u => u.firebaseUid == uid) with
  | none => (.notFound, [], users)
  | some reporter =>
    if reporter.isAway then (.invalidState, [], users)
    else
      let remainingUsers := users.filter (fun u => !u.hasEaten && !u.isAway)
      let usersWhoAte := users.filter (fun u => u.hasEaten)
      if remainingUsers.length == 0 then (.done, [], users)
      else
        (.sent remainingUsers.length,
         attemptSends fails "Food Finished!" remainingUsers
           ++ attemptSends fails "Food Status" usersWhoAte,
         users)

/-- Boolean form of the away/eaten invariant: an away user has not eaten. -/
def invAllB (users : List UserR) : Bool :=
  users.all (fun u => !u.isAway || !u.hasEaten)

/-- Concrete user: present, has not eaten, holds a device token. -/
def uAlice : UserR :=
  { email := "alice@w306", name := "Alice", firebaseUid := "a",
    hasEaten := false, lastEatenAt := none, fcmToken := some "tokA",
    mealHistory := [], isAway := false, awayStartDate := none,
    awayEndDate := none, missedMealsCount := 0 }

/-- Concrete user: present, has eaten, holds a device token. -/
def uBob : UserR :=
  { email := "bob@w306", name := "Bob", firebaseUid := "b",
    hasEaten := true, lastEatenAt := some 2, fcmToken := some "tokB",
    mealHistory := [], isAway := false, awayStartDate := none,
    awayEndDate := none, missedMealsCount := 1 }

/-- Concrete user: away, has not eaten, holds a device token. -/
def uCara : UserR :=
  { email := "cara@w306", name := "Cara", firebaseUid := "c",
    hasEaten := false, lastEatenAt := none, fcmToken := some "tokC",
    mealHistory := [], isAway := true, awayStartDate := some 1,
    awayEndDate := none, missedMealsCount := 3 }

/-- A small concrete store used to instantiate the theorems. -/
def demoUsers : List UserR := [uAlice, uBob, uCara]

/-- A concrete store at the registration cap of five users. -/
def fiveUsers : List UserR :=
  [uAlice, uBob, uCara, newUser "Dee" "dee@w306" "d", newUser "Eli" "eli@w306" "e"]

-- Sanity checks on small inputs.
example : getCurrentMealType 10 = "Lunch" := rfl
example : getCurrentMealType 6 = "Dinner" := rfl

/-! ### Helper lemmas -/

theorem clearEaten_idem (u : UserR) :
    clearEatenIfPresent (clearEatenIfPresent u) = clearEatenIfPresent u := by
  cases hA : u.isAway <;> simp [clearEatenIfPresent, hA]

theorem resetEaten_user_step (now hour : Nat) (u : UserR) :
    clearEatenIfPresent (recordMissedIfEligible now hour u) =
      (if u.isAway then u
       else if u.hasEaten then { u with hasEaten := false }
       else { u with hasEaten := false,
                     missedMealsCount := u.missedMealsCount + 1,
                     mealHistory := u.mealHistory ++ [missedRecord now hour] }) := by
  cases hA : u.isAway <;> cases hE : u.hasEaten <;>
    simp [recordMissedIfEligible, clearEatenIfPresent, hA, hE]

theorem updateFirst_find? (p : UserR → Bool) (f : UserR → UserR)
    (users : List UserR) (u : UserR) (h : users.find? p = some u)
    (hf : p (f u) = true) :
    (updateFirst p f users).find? p = some (f u) := by
  induction users with
  | nil => simp at h
  | cons v rest ih =>
    by_cases hpv : p v = true
    · rw [List.find?_cons_of_pos _ hpv] at h
      cases h
      simp only [updateFirst]
      rw [if_pos hpv]
      exact List.find?_cons_of_pos _ hf
    · rw [List.find?_cons_of_neg _ hpv] at h
      simp only [updateFirst]
      rw [if_neg hpv, List.find?_cons_of_neg _ hpv]
      exact ih h

theorem mem_updateFirst (p : UserR → Bool) (f : UserR → UserR)
    (users : List UserR) (v : UserR) (hv : v ∈ updateFirst p f users) :
    v ∈ users ∨ ∃ w, users.find? p = some w ∧ v = f w := by
  induction users with
  | nil => simp [updateFirst] at hv
  | cons u rest ih =>
    by_cases hpu : p u = true
    · simp only [updateFirst] at hv
      rw [if_pos hpu] at hv
      rcases List.mem_cons.mp hv with h | h
      · exact Or.inr ⟨u, List.find?_cons_of_pos _ hpu, h⟩
      · exact Or.inl (List.mem_cons_of_mem _ h)
    · simp only [updateFirst] at hv
      rw [if_neg hpu] at hv
      rcases List.mem_cons.mp hv with h | h
      · exact Or.inl (h ▸ List.mem_cons_self _ _)
      · rcases ih h with h1 | ⟨w, hw, hvw⟩
        · exact Or.inl (List.mem_cons_of_mem _ h1)
        · refine Or.inr ⟨w, ?_, hvw⟩
          rw [List.find?_cons_of_neg _ hpu]
          exact hw

/-! ### Claim theorems -/

/-- C1 counterexample: a present user who has not eaten, with
`missedMealsCount = 0` and empty history, is returned entirely unchanged by
the once-per-day scheduled reset `resetEatenStatus`; in particular the
claimed increment of `missedMealsCount` and the claimed appended missed
MealRecord do not happen. -/
theorem resetEatenStatus_no_missed_accounting :
    uAlice.isAway = false ∧ uAlice.hasEaten = false ∧
    resetEatenStatus [uAlice] = [uAlice] ∧
    (resetEatenStatus [uAlice]).map (fun u => u.missedMealsCount)
      ≠ [uAlice.missedMealsCount + 1] ∧
    (resetEatenStatus [uAlice]).map (fun u => u.mealHistory.length)
      ≠ [uAlice.mealHistory.length + 1] := by
  decide

/-- C1 (amended): the behaviour the claim describes is that of the on-demand
reset endpoint `POST /api/users/reset-eaten`: every away user is entirely
unchanged; every non-away user who had eaten only has `hasEaten` cleared;
every non-away user who had not eaten gets `missedMealsCount` incremented by
exactly 1, exactly one missed MealRecord (date `now`, meal type from the
current hour, eaten=false, status=missed) appended, and `hasEaten` cleared. -/
theorem resetEaten_characterization (now hour : Nat) (users : List UserR) :
    resetEaten now hour users = users.map (fun u =>
      if u.isAway then u
      else if u.hasEaten then { u with hasEaten := false }
      else { u with hasEaten := false,
                    missedMealsCount := u.missedMealsCount + 1,
                    mealHistory := u.mealHistory ++ [missedRecord now hour] }) := by
  unfold resetEaten resetEatenStatus
  rw [List.map_map]
  exact congrArg (fun f => users.map f)
    (funext fun u => resetEaten_user_step now hour u)

/-- C8: the once-per-day reset run twice in the same tick has no additional
effect: the store after the second run equals the store after the first. -/
theorem resetEatenStatus_idempotent (users : List UserR) :
    resetEatenStatus (resetEatenStatus users) = resetEatenStatus users := by
  unfold resetEatenStatus
  rw [List.map_map]
  exact congrArg (fun f => users.map f) (funext fun u => clearEaten_idem u)

/-- C9: `getCurrentMealType` is a pure function of the hour, returning Lunch
exactly on hours in [7,17) and Dinner otherwise; in particular hour 10 gives
Lunch, hour 20 gives Dinner, hour 6 gives Dinner. -/
theorem getCurrentMealType_spec :
    (∀ hr : Nat, getCurrentMealType hr
        = if 7 ≤ hr ∧ hr < 17 then "Lunch" else "Dinner") ∧
    getCurrentMealType 10 = "Lunch" ∧
    getCurrentMealType 20 = "Dinner" ∧
    getCurrentMealType 6 = "Dinner" :=
  ⟨fun _ => rfl, rfl, rfl, rfl⟩

/-- C3: `markEaten` answers 404 leaving the store unchanged when the uid is
unknown; answers 400 leaving the store unchanged (in particular `hasEaten`
unmutated) when the found user is away; and for a present user answers ok
with that user updated to `hasEaten=true`, `lastEatenAt=now`. -/
theorem markEaten_spec (uid : String) (now : Nat) (users : List UserR) :
    (users.find? (fun v => v.firebaseUid == uid) = none →
      markEaten uid now users = (.notFound, users)) ∧
    (∀ u, users.find? (fun v => v.firebaseUid == uid) = some u →
      u.isAway = true → markEaten uid now users = (.invalidState, users)) ∧
    (∀ u, users.find? (fun v => v.firebaseUid == uid) = some u →
      u.isAway = false →
      (markEaten uid now users).1 = .ok ∧
      (markEaten uid now users).2.find? (fun v => v.firebaseUid == uid)
        = some { u with hasEaten := true, lastEatenAt := some now }) := by
  refine ⟨?_, ?_, ?_⟩
  · intro h
    simp [markEaten, h]
  · intro u h ha
    simp [markEaten, h, ha]
  · intro u h ha
    have hp := List.find?_some h
    constructor
    · simp [markEaten, h, ha]
    · have hupd : (markEaten uid now users).2
          = updateFirst (fun v => v.firebaseUid == uid)
              (fun v => { v with hasEaten := true, lastEatenAt := some now })
              users := by
        simp [markEaten, h, ha]
      rw [hupd]
      exact updateFirst_find? _ _ users u h hp

/-- C3 witness: the three branches at a concrete store. -/
theorem markEaten_spec_witness :
    markEaten "zz" 5 demoUsers = (.notFound, demoUsers) ∧
    markEaten "c" 5 demoUsers = (.invalidState, demoUsers) ∧
    ((markEaten "a" 5 demoUsers).1 = .ok ∧
     (markEaten "a" 5 demoUsers).2.find? (fun v => v.firebaseUid == "a")
       = some { uAlice with hasEaten := true, lastEatenAt := some 5 }) :=
  ⟨(markEaten_spec "zz" 5 demoUsers).1 (by decide),
   (markEaten_spec "c" 5 demoUsers).2.1 uCara (by decide) (by decide),
   (markEaten_spec "a" 5 demoUsers).2.2 uAlice (by decide) (by decide)⟩

/-- C5: toggling a present user sets `isAway=true`, `awayStartDate=now`,
clears `awayEndDate` and resets `hasEaten`; toggling the now-away user back
sets `isAway=false` and `awayEndDate=now`; so two toggles round-trip
`isAway` to false with a non-null `awayEndDate`, and the store after the two
calls holds exactly that twice-toggled user under this uid. -/
theorem toggleAway_roundtrip (uid : String) (n1 n2 : Nat) (users : List UserR)
    (u : UserR) (hfind : users.find? (fun v => v.firebaseUid == uid) = some u)
    (hp : u.isAway = false) :
    (toggleAwayUser n1 u).isAway = true ∧
    (toggleAwayUser n1 u).awayStartDate = some n1 ∧
    (toggleAwayUser n1 u).awayEndDate = none ∧
    (toggleAwayUser n1 u).hasEaten = false ∧
    (toggleAwayUser n2 (toggleAwayUser n1 u)).isAway = false ∧
    (toggleAwayUser n2 (toggleAwayUser n1 u)).awayEndDate = some n2 ∧
    ((toggleAway uid n2 (toggleAway uid n1 users).2).2.find?
        (fun v => v.firebaseUid == uid)
      = some (toggleAwayUser n2 (toggleAwayUser n1 u))) := by
  have hid : ∀ (n : Nat) (v : UserR),
      (toggleAwayUser n v).firebaseUid = v.firebaseUid := by
    intro n v
    unfold toggleAwayUser
    split <;> rfl
  have hpmatch := List.find?_some hfind
  have h1 : (toggleAwayUser n1 u).isAway = true := by
    simp [toggleAwayUser, hp]
  have h2 : (toggleAwayUser n2 (toggleAwayUser n1 u)).isAway = false := by
    simp [toggleAwayUser, hp]
  have hs1 : (toggleAway uid n1 users).2
      = updateFirst (fun v => v.firebaseUid == uid) (toggleAwayUser n1) users := by
    simp [toggleAway, hfind]
  have hf1 : ((toggleAway uid n1 users).2.find? (fun v => v.firebaseUid == uid))
      = some (toggleAwayUser n1 u) := by
    rw [hs1]
    exact updateFirst_find? _ _ users u hfind (by simpa [hid] using hpmatch)
  have key : ∀ s : List UserR,
      s.find? (fun v => v.firebaseUid == uid) = some (toggleAwayUser n1 u) →
      (toggleAway uid n2 s).2.find? (fun v => v.firebaseUid == uid)
        = some (toggleAwayUser n2 (toggleAwayUser n1 u)) := by
    intro s hs
    have hs2 : (toggleAway uid n2 s).2
        = updateFirst (fun v => v.firebaseUid == uid) (toggleAwayUser n2) s := by
      simp [toggleAway, hs]
    rw [hs2]
    exact updateFirst_find? _ _ _ _ hs (by simpa [hid] using hpmatch)
  exact ⟨h1, by simp [toggleAwayUser, hp], by simp [toggleAwayUser, hp],
    by simp [toggleAwayUser, hp], h2, by simp [toggleAwayUser, hp],
    key _ hf1⟩

/-- C5 witness: the round trip at a concrete present user. -/
theorem toggleAway_roundtrip_witness :
    (toggleAwayUser 10 uAlice).isAway = true ∧
    (toggleAwayUser 10 uAlice).awayStartDate = some 10 ∧
    (toggleAwayUser 10 uAlice).awayEndDate = none ∧
    (toggleAwayUser 10 uAlice).hasEaten = false ∧
    (toggleAwayUser 11 (toggleAwayUser 10 uAlice)).isAway = false ∧
    (toggleAwayUser 11 (toggleAwayUser 10 uAlice)).awayEndDate = some 11 ∧
    ((toggleAway "a" 11 (toggleAway "a" 10 demoUsers).2).2.find?
        (fun v => v.firebaseUid == "a")
      = some (toggleAwayUser 11 (toggleAwayUser 10 uAlice))) :=
  toggleAway_roundtrip "a" 10 11 demoUsers uAlice (by decide) (by decide)

/-- C7 counterexample: with the store at the cap of five users, a
re-registration by the already-registered identity "a" is rejected with 403
Forbidden instead of returning the existing record. -/
theorem register_at_cap_rejects_existing :
    fiveUsers.length = 5 ∧
    fiveUsers.find? (fun v => v.firebaseUid == "a") = some uAlice ∧
    register "Alice" "alice@w306" "a" fiveUsers = (.forbidden, fiveUsers) := by
  decide

/-- C7 (amended): registration is idempotent only below the five-user cap:
when the identity already has a record and fewer than five users exist, the
call returns the existing record and creates no user; when five or more
users exist, every registration call — even by an existing identity — fails
with 403 and changes nothing. -/
theorem register_idempotent_below_cap (name email uid : String)
    (users : List UserR) (u : UserR)
    (hfind : users.find? (fun v => v.firebaseUid == uid) = some u) :
    (users.length < 5 → register name email uid users = (.ok u, users)) ∧
    (5 ≤ users.length → register name email uid users = (.forbidden, users)) := by
  constructor
  · intro hlen
    have hnot : ¬ users.length ≥ 5 := by omega
    simp [register, hnot, hfind]
  · intro hlen
    simp [register, hlen]

/-- C7 witness: both arms at concrete stores of three and five users. -/
theorem register_idempotent_below_cap_witness :
    register "Alice" "alice@w306" "a" demoUsers = (.ok uAlice, demoUsers) ∧
    register "Alice" "alice@w306" "a" fiveUsers = (.forbidden, fiveUsers) :=
  ⟨(register_idempotent_below_cap "Alice" "alice@w306" "a" demoUsers uAlice
      (by decide)).1 (by decide),
   (register_idempotent_below_cap "Alice" "alice@w306" "a" fiveUsers uAlice
      (by decide)).2 (by decide)⟩

theorem attemptSends_not_away (fails : String → Bool) (title : String)
    (rs : List UserR) :
    (attemptSends fails title rs).all (fun a => !a.recipient.isAway) = true := by
  induction rs with
  | nil => rfl
  | cons u rest ih =>
    cases htok : u.fcmToken with
    | none => simpa [attemptSends, htok] using ih
    | some tok =>
      cases ha : u.isAway <;> simp [attemptSends, htok, ha, ih]

theorem attemptSends_recipients (fails : String → Bool) (title : String)
    (rs : List UserR) :
    (attemptSends fails title rs).map (fun a => a.recipient)
      = rs.filter (fun u => u.fcmToken.isSome && !u.isAway) := by
  induction rs with
  | nil => rfl
  | cons u rest ih =>
    cases htok : u.fcmToken with
    | none => simp [attemptSends, htok, List.filter_cons, ih]
    | some tok =>
      cases ha : u.isAway <;>
        simp [attemptSends, htok, ha, List.filter_cons, ih]

theorem report_attempts_not_away (fails : String → Bool) (uid : String)
    (users : List UserR) :
    ((reportFoodFinished fails uid users).2.1.all
        (fun a => !a.recipient.isAway)) = true := by
  unfold reportFoodFinished
  cases h : users.find? (fun v => v.firebaseUid == uid) with
  | none => rfl
  | some reporter =>
    cases har : reporter.isAway with
    | true => simp [har]
    | false =>
      simp only [har, Bool.false_eq_true, if_false]
      split
      · rfl
      · simp [List.all_append, attemptSends_not_away]

/-- C2: an away user is never touched by either reset path — so no
missed-count increment and no missed-record append ever happens to them —
and no notification send is ever attempted to an away recipient by the
report-food-finished fan-out. -/
theorem away_users_excluded (u : UserR) (hu : u.isAway = true)
    (now hour : Nat) (users : List UserR) (fails : String → Bool)
    (uid : String) :
    clearEatenIfPresent u = u ∧
    recordMissedIfEligible now hour u = u ∧
    ((reportFoodFinished fails uid users).2.1.all
        (fun a => !a.recipient.isAway)) = true :=
  ⟨by simp [clearEatenIfPresent, hu],
   by simp [recordMissedIfEligible, hu],
   report_attempts_not_away fails uid users⟩

/-- C2 witness: the away user Cara at a concrete store, with Alice's send
failing. -/
theorem away_users_excluded_witness :
    uCara.isAway = true ∧
    (clearEatenIfPresent uCara = uCara ∧
     recordMissedIfEligible 4 12 uCara = uCara ∧
     ((reportFoodFinished (fun t => t == "tokA") "a" demoUsers).2.1.all
        (fun a => !a.recipient.isAway)) = true) :=
  ⟨rfl, away_users_excluded uCara rfl 4 12 demoUsers (fun t => t == "tokA") "a"⟩

/-- C4: when the reporter exists, is not away, and some non-away user has not
eaten, the recipients to whom a send is attempted are exactly the
token-holding non-away members of the remaining list followed by those of
the ate list — a list that does not depend on which sends fail, so one
recipient's failure never suppresses another's attempt — and the handler
answers the success summary, not an error. -/
theorem report_attempts_all_eligible (users : List UserR) (uid : String)
    (fails : String → Bool) (reporter : UserR)
    (hfind : users.find? (fun v => v.firebaseUid == uid) = some reporter)
    (hna : reporter.isAway = false)
    (hrem : users.filter (fun v => !v.hasEaten && !v.isAway) ≠ []) :
    ((reportFoodFinished fails uid users).2.1.map (fun a => a.recipient)
      = (users.filter (fun v => !v.hasEaten && !v.isAway)).filter
          (fun v => v.fcmToken.isSome && !v.isAway)
        ++ (users.filter (fun v => v.hasEaten)).filter
          (fun v => v.fcmToken.isSome && !v.isAway)) ∧
    (reportFoodFinished fails uid users).1
      = .sent (users.filter (fun v => !v.hasEaten && !v.isAway)).length := by
  have hlen : ((users.filter (fun v => !v.hasEaten && !v.isAway)).length == 0)
      = false := by
    rw [beq_eq_false_iff_ne]
    simpa [List.length_eq_zero] using hrem
  constructor
  · simp only [reportFoodFinished, hfind, hna, Bool.false_eq_true, if_false,
      hlen]
    rw [List.map_append, attemptSends_recipients, attemptSends_recipients]
  · simp only [reportFoodFinished, hfind, hna, Bool.false_eq_true, if_false,
      hlen]

/-- C4 witness: a concrete store where Alice's send fails; the attempt list
still covers every eligible recipient and the call answers the summary. -/
theorem report_attempts_all_eligible_witness :
    (((reportFoodFinished (fun t => t == "tokA") "a" demoUsers).2.1.map
        (fun a => a.recipient))
      = (demoUsers.filter (fun v => !v.hasEaten && !v.isAway)).filter
          (fun v => v.fcmToken.isSome && !v.isAway)
        ++ (demoUsers.filter (fun v => v.hasEaten)).filter
          (fun v => v.fcmToken.isSome && !v.isAway)) ∧
    (reportFoodFinished (fun t => t == "tokA") "a" demoUsers).1
      = .sent (demoUsers.filter (fun v => !v.hasEaten && !v.isAway)).length :=
  report_attempts_all_eligible demoUsers "a" (fun t => t == "tokA") uAlice
    (by decide) (by decide) (by decide)

/-- C6: with no remaining non-away uneaten user, the handler answers the done
message, attempts zero sends, and leaves the store unchanged. -/
theorem report_done_when_no_remaining (users : List UserR) (uid : String)
    (fails : String → Bool) (reporter : UserR)
    (hfind : users.find? (fun v => v.firebaseUid == uid) = some reporter)
    (hna : reporter.isAway = false)
    (hrem : users.filter (fun v => !v.hasEaten && !v.isAway) = []) :
    reportFoodFinished fails uid users = (.done, [], users) := by
  simp [reportFoodFinished, hfind, hna, hrem]

/-- C6 witness: Bob has eaten and Cara is away, so nobody remains. -/
theorem report_done_witness :
    reportFoodFinished (fun _ => false) "b" [uBob, uCara]
      = (.done, [], [uBob, uCara]) :=
  report_done_when_no_remaining [uBob, uCara] "b" (fun _ => false) uBob
    (by decide) (by decide) (by decide)

theorem invAllB_iff (users : List UserR) :
    invAllB users = true
      ↔ ∀ u ∈ users, u.isAway = true → u.hasEaten = false := by
  simp only [invAllB, List.all_eq_true, Bool.or_eq_true, Bool.not_eq_true']
  constructor
  · intro h u hu ha
    rcases h u hu with h1 | h1
    · rw [ha] at h1
      exact absurd h1 (by decide)
    · exact h1
  · intro h u hu
    cases ha : u.isAway with
    | false => exact Or.inl rfl
    | true => exact Or.inr (h u hu ha)

theorem invAll_map (f : UserR → UserR)
    (hf : ∀ u, (u.isAway = true → u.hasEaten = false) →
      ((f u).isAway = true → (f u).hasEaten = false))
    (users : List UserR) (h : invAllB users = true) :
    invAllB (users.map f) = true := by
  rw [invAllB_iff] at h ⊢
  intro v hv
  rcases List.mem_map.mp hv with ⟨w, hw, rfl⟩
  exact hf w (h w hw)

theorem invAll_updateFirst (p : UserR → Bool) (f : UserR → UserR)
    (users : List UserR)
    (hf : ∀ u, users.find? p = some u →
      (u.isAway = true → u.hasEaten = false) →
      ((f u).isAway = true → (f u).hasEaten = false))
    (h : invAllB users = true) :
    invAllB (updateFirst p f users) = true := by
  rw [invAllB_iff] at h ⊢
  intro v hv
  rcases mem_updateFirst p f users v hv with h1 | ⟨w, hw, rfl⟩
  · exact h v h1
  · exact hf w hw (h w (List.mem_of_find?_eq_some hw))

/-- C10: the unstated invariant "isAway implies not hasEaten" holds of a
fresh user (both flags false) and is preserved over the whole store by every
mutating operation — registration, token update, markEaten (which rejects
away users before mutating), toggleAway (which clears hasEaten whenever it
sets isAway), and both reset paths (which touch only non-away users) — and
under it the ate list, though filtered only on hasEaten, contains no away
user. -/
theorem away_not_eaten_invariant (name email uid tok : String)
    (now hour : Nat) (users : List UserR) (hinv : invAllB users = true) :
    ((newUser name email uid).isAway = false ∧
     (newUser name email uid).hasEaten = false) ∧
    invAllB (register name email uid users).2 = true ∧
    invAllB (updateFcmToken uid tok users) = true ∧
    invAllB (markEaten uid now users).2 = true ∧
    invAllB (toggleAway uid now users).2 = true ∧
    invAllB (resetEatenStatus users) = true ∧
    invAllB (resetEaten now hour users) = true ∧
    (users.filter (fun v => v.hasEaten)).all (fun v => !v.isAway) = true := by
  have hclear : ∀ v : UserR, (v.isAway = true → v.hasEaten = false) →
      ((clearEatenIfPresent v).isAway = true
        → (clearEatenIfPresent v).hasEaten = false) := by
    intro v hv
    cases ha : v.isAway with
    | false => simp [clearEatenIfPresent, ha]
    | true => simpa [clearEatenIfPresent, ha] using hv ha
  have hrec : ∀ v : UserR, (v.isAway = true → v.hasEaten = false) →
      ((recordMissedIfEligible now hour v).isAway = true
        → (recordMissedIfEligible now hour v).hasEaten = false) := by
    intro v hv
    unfold recordMissedIfEligible
    split
    · exact hv
    · exact hv
  have htog : ∀ v : UserR,
      ((toggleAwayUser now v).isAway = true
        → (toggleAwayUser now v).hasEaten = false) := by
    intro v
    cases ha : v.isAway <;> simp [toggleAwayUser, ha]
  refine ⟨⟨rfl, rfl⟩, ?_, ?_, ?_, ?_, ?_, ?_, ?_⟩
  · unfold register
    by_cases hlen : users.length ≥ 5
    · rw [if_pos hlen]
      exact hinv
    · rw [if_neg hlen]
      cases hf : users.find? (fun u => u.firebaseUid == uid) with
      | some u => exact hinv
      | none =>
        show invAllB (users ++ [newUser name email uid]) = true
        rw [invAllB, List.all_append]
        rw [invAllB] at hinv
        rw [hinv]
        simp [newUser]
  · exact invAll_updateFirst _ _ users (fun u _ hI => hI) hinv
  · cases hf : users.find? (fun u => u.firebaseUid == uid) with
    | none =>
      have h2 : (markEaten uid now users).2 = users := by simp [markEaten, hf]
      rw [h2]
      exact hinv
    | some u =>
      cases ha : u.isAway with
      | true =>
        have h2 : (markEaten uid now users).2 = users := by
          simp [markEaten, hf, ha]
        rw [h2]
        exact hinv
      | false =>
        have h2 : (markEaten uid now users).2
            = updateFirst (fun v => v.firebaseUid == uid)
                (fun v => { v with hasEaten := true, lastEatenAt := some now })
                users := by
          simp [markEaten, hf, ha]
        rw [h2]
        apply invAll_updateFirst _ _ users ?_ hinv
        intro w hw _ hAway
        rw [hf] at hw
        cases hw
        have hAway' : u.isAway = true := hAway
        rw [ha] at hAway'
        exact absurd hAway' (by decide)
  · unfold toggleAway
    cases hf : users.find? (fun u => u.firebaseUid == uid) with
    | none => exact hinv
    | some u =>
      exact invAll_updateFirst _ _ users (fun w _ _ => htog w) hinv
  · exact invAll_map clearEatenIfPresent hclear users hinv
  · unfold resetEaten resetEatenStatus
    exact invAll_map clearEatenIfPresent hclear _
      (invAll_map (recordMissedIfEligible now hour) hrec users hinv)
  · rw [List.all_eq_true]
    intro v hv
    have hmem := (List.mem_filter.mp hv).1
    have hatev : v.hasEaten = true := by
      simpa using (List.mem_filter.mp hv).2
    rw [invAllB_iff] at hinv
    cases ha : v.isAway with
    | false => simp [ha]
    | true =>
      have hfalse := hinv v hmem ha
      rw [hfalse] at hatev
      exact absurd hatev (by decide)

/-- C10 witness: the invariant holds on the concrete store and is preserved
by each operation applied there. -/
theorem away_not_eaten_invariant_witness :
    invAllB demoUsers = true ∧
    (((newUser "Dee" "dee@w306" "d").isAway = false ∧
      (newUser "Dee" "dee@w306" "d").hasEaten = false) ∧
     invAllB (register "Dee" "dee@w306" "d" demoUsers).2 = true ∧
     invAllB (updateFcmToken "d" "tokD" demoUsers) = true ∧
     invAllB (markEaten "d" 7 demoUsers).2 = true ∧
     invAllB (toggleAway "d" 7 demoUsers).2 = true ∧
     invAllB (resetEatenStatus demoUsers) = true ∧
     invAllB (resetEaten 7 12 demoUsers) = true ∧
     (demoUsers.filter (fun v => v.hasEaten)).all (fun v => !v.isAway) = true) :=
  ⟨by decide,
   away_not_eaten_invariant "Dee" "dee@w306" "d" "tokD" 7 12 demoUsers
     (by decide)⟩
